import Mathlib

/-!
# Verification of `transcribe_channel.py`

A shallow embedding of the resumable channel-transcription pipeline
(`transcribe_channel.py`): the slug namer `safe_name`, the caption
normalizer `vtt_to_txt`, the manifest ledger (`read_manifest_ids`,
`append_manifest`), and the per-video processing loop of `main`
(resume check, escalation chain, persistence, combined-document append).

External collaborators (yt-dlp, webvtt, faster-whisper, json, unidecode)
are modelled as oracles/inputs: the embedding covers the repository's own
logic over the data those collaborators return.
-/

namespace Transcribe

/-! ## Python string primitives -/

/-- Python whitespace, the set stripped by `str.strip()` and matched by
regex `\s` for ASCII text: space, tab, newline, carriage return,
vertical tab, form feed. -/
def isPySpace (c : Char) : Bool :=
  c = ' ' || c = '\t' || c = '\n' || c = '\r' || c = '\x0b' || c = '\x0c'

/-- Strip leading and trailing characters satisfying `p` (Python
`str.strip` / `str.rstrip` generalized), on character lists. -/
def stripLeadL (p : Char → Bool) (l : List Char) : List Char :=
  l.dropWhile p

def stripTrailL (p : Char → Bool) (l : List Char) : List Char :=
  (l.reverse.dropWhile p).reverse

/-- Python `str.strip()` on a character list. -/
def pyStripL (l : List Char) : List Char :=
  stripTrailL isPySpace (stripLeadL isPySpace l)

/-- Python `str.strip()` on strings. -/
def pyStrip (s : String) : String :=
  String.mk (pyStripL s.data)

/-! ## `safe_name` (transcribe_channel.py lines 11-17)

```python
SAFE = r"[^A-Za-z0-9\-\._ ]+"

def safe_name(s: str, maxlen: int = 80) -> str:
    s = unidecode(s).strip()
    s = re.sub(SAFE, "_", s)
    s = re.sub(r"\s+", " ", s).strip()
    return s[:maxlen].rstrip("._- ")
```

`unidecode` (an external library) transliterates non-ASCII to ASCII and is
the identity on ASCII text; the embedding takes the post-transliteration
string as input, so `safe_name` below is exact for ASCII inputs. -/

/-- Membership in the character class `[A-Za-z0-9\-\._ ]` of the `SAFE`
regex. -/
def isSafeChar (c : Char) : Bool :=
  ('A' ≤ c && c ≤ 'Z') || ('a' ≤ c && c ≤ 'z') || ('0' ≤ c && c ≤ '9') ||
    c = '-' || c = '.' || c = '_' || c = ' '

/-- `re.sub(r"[^A-Za-z0-9\-\._ ]+", "_", s)`: each maximal run of
characters outside the safe class is replaced by a single `'_'`.
The boolean argument records whether we are inside such a run. -/
def subSafeAux : Bool → List Char → List Char
  | _, [] => []
  | inRun, c :: rest =>
    if isSafeChar c then c :: subSafeAux false rest
    else if inRun then subSafeAux true rest
    else '_' :: subSafeAux true rest

def subSafeRuns (l : List Char) : List Char :=
  subSafeAux false l

/-- `re.sub(r"\s+", " ", s)`: each maximal run of whitespace is replaced
by a single space. -/
def collapseWsAux : Bool → List Char → List Char
  | _, [] => []
  | inWs, c :: rest =>
    if isPySpace c then
      (if inWs then collapseWsAux true rest else ' ' :: collapseWsAux true rest)
    else c :: collapseWsAux false rest

def collapseWs (l : List Char) : List Char :=
  collapseWsAux false l

/-- The trailing-separator set of `rstrip("._- ")`. -/
def isSepChar (c : Char) : Bool :=
  c = '.' || c = '_' || c = '-' || c = ' '

/-- `safe_name` from the source, over the post-`unidecode` string. -/
def safe_name (s : String) (maxlen : Nat) : String :=
  let l₁ := pyStripL s.data
  let l₂ := subSafeRuns l₁
  let l₃ := pyStripL (collapseWs l₂)
  String.mk (stripTrailL isSepChar (l₃.take maxlen))

/-! ## `vtt_to_txt` (lines 19-30)

```python
def vtt_to_txt(vtt_path: Path) -> str:
    lines = []
    for cue in webvtt.read(str(vtt_path)):
        t = cue.text.replace("\n", " ").strip()
        if t:
            lines.append(t)
    out, last = [], ""
    for seg in lines:
        if seg != last:
            out.append(seg)
        last = seg
    return " ".join(out).strip()
```

The webvtt parse is external; the embedding takes the ordered cue texts
as input. -/

/-- `cue.text.replace("\n", " ").strip()`. -/
def cleanCue (t : String) : String :=
  String.mk (pyStripL (t.data.map fun c => if c = '\n' then ' ' else c))

/-- The `out, last` loop of `vtt_to_txt`: append `seg` only when it
differs from the previous element, always updating `last`. -/
def dedupLoop : List String → String → List String
  | [], _ => []
  | seg :: rest, last =>
    if seg ≠ last then seg :: dedupLoop rest seg else dedupLoop rest seg

/-- Python `" ".join(l)`. -/
def joinSpace : List String → String
  | [] => ""
  | [s] => s
  | s :: rest => s ++ " " ++ joinSpace rest

/-- `vtt_to_txt` over the ordered sequence of cue texts. -/
def vtt_to_txt (cues : List String) : String :=
  let lines := (cues.map cleanCue).filter (· ≠ "")
  pyStrip (joinSpace (dedupLoop lines ""))

/-! ## Manifest ledger (lines 137-152)

```python
def read_manifest_ids(manifest_path: Path) -> Set[str]:
    seen: Set[str] = set()
    if manifest_path.exists():
        with manifest_path.open("r", encoding="utf-8") as mf:
            for line in mf:
                try:
                    obj = json.loads(line)
                    if isinstance(obj, dict) and obj.get("id"):
                        seen.add(obj["id"])
                except Exception:
                    continue
    return seen

def append_manifest(manifest_path: Path, rec: Dict) -> None:
    with manifest_path.open("a", encoding="utf-8") as mf:
        mf.write(json.dumps(rec, ensure_ascii=False) + "\n")
```

`json.loads` is external; a ledger line is embedded as its parse outcome:
`none` when `json.loads` raises, `some v` for the parsed JSON value. -/

/-- JSON values, as returned by `json.loads`. -/
inductive JVal where
  | null : JVal
  | bool (b : Bool) : JVal
  | num (n : Int) : JVal
  | str (s : String) : JVal
  | arr (xs : List JVal) : JVal
  | obj (kvs : List (String × JVal)) : JVal

/-- Hashable JSON values: the ones Python's `set.add` accepts. Adding a
list or dict raises `TypeError`, which the loader's blanket `except`
catches, so only these can end up in `seen`. -/
inductive JKey where
  | null : JKey
  | bool (b : Bool) : JKey
  | num (n : Int) : JKey
  | str (s : String) : JKey
deriving DecidableEq

/-- Python truthiness of a JSON value (`if obj.get("id"):`). -/
def JVal.truthy : JVal → Bool
  | .null => false
  | .bool b => b
  | .num n => n ≠ 0
  | .str s => s ≠ ""
  | .arr xs => !xs.isEmpty
  | .obj kvs => !kvs.isEmpty

/-- A value Python can put in a set; `none` for the unhashable list and
dict, whose `set.add` raises. -/
def JVal.toKey : JVal → Option JKey
  | .null => some .null
  | .bool b => some (.bool b)
  | .num n => some (.num n)
  | .str s => some (.str s)
  | .arr _ => none
  | .obj _ => none

/-- `dict.get(k)`: the value at key `k`, if present. -/
def JVal.dictGet (kvs : List (String × JVal)) (k : String) : Option JVal :=
  (kvs.find? fun kv => kv.1 = k).map fun kv => kv.2

/-- The id contributed by one ledger line: the line must parse
(`some`), parse to a dict, `obj.get("id")` must be truthy, and the id
must be addable to a set; then `obj["id"]` is added. Any other line is
skipped (parse failures and `set.add` type errors by the `except`,
non-dicts and missing/falsy ids by the `if`). -/
def lineId : Option JVal → Option JKey
  | some (.obj kvs) =>
    match JVal.dictGet kvs "id" with
    | some v => if v.truthy then v.toKey else none
    | _ => none
  | _ => none

/-- Python `set.add`: insert only if not already present. -/
def setAdd (s : List JKey) (v : JKey) : List JKey :=
  if v ∈ s then s else s ++ [v]

/-- The loop body of `read_manifest_ids` for one line. -/
def loadStep (seen : List JKey) (line : Option JVal) : List JKey :=
  match lineId line with
  | some v => setAdd seen v
  | none => seen

/-- `read_manifest_ids` over the parse outcomes of the ledger's lines:
the set (as a duplicate-free list) of ids of the successfully parsed
records. -/
def read_manifest_ids (lines : List (Option JVal)) : List JKey :=
  lines.foldl loadStep []

/-! ## The per-video processing loop of `main` (lines 208-254)

The loop body for one entry `e`:

```python
title = e.get("title", "video"); vid = e.get("id", ""); url = e.get("webpage_url") or e.get("url")
if not url or not vid: continue
base = safe_name(f"{title} [{vid}]")
per_txt = txt_dir / f"{base}.txt"
if not args.force and (vid in seen_ids or (per_txt.exists() and per_txt.stat().st_size > 32)):
    existing = per_txt.read_text(encoding="utf-8").strip() if per_txt.exists() else ""
    combined_parts.append(f"# {title}\n# {url}\n\n{existing}\n\n")
    if vid not in seen_ids:
        append_manifest(manifest_path, {...}); seen_ids.add(vid)
    continue
txt = try_download_subs(sub_params, url, lang_list, subs_dir)
if (not txt or len(txt) < 50) and not args.skip_whisper:
    a = download_audio(aud_params, url, audio_dir)
    if a:
        try: txt = whisper_transcribe(a, ...)
        except Exception: txt = ""
        try: a.unlink()
        except Exception: pass
if not txt: txt = ""
per_txt.write_text(txt, encoding="utf-8")
combined_parts.append(f"# {title}\n# {url}\n\n{txt}\n\n")
append_manifest(manifest_path, {...}); seen_ids.add(vid)
```

The network, filesystem and engine are oracles consumed per entry; the
loop's externally visible calls are recorded as an event trace. The
best-effort `a.unlink()` cleanup has no effect on any state the loop
reads and is not modelled. -/

/-- A channel entry as used by the loop: `url` is already
`e.get("webpage_url") or e.get("url")`, with `""` for a missing field. -/
structure Entry where
  id : String
  title : String
  url : String
deriving DecidableEq

/-- A manifest record `{"id": vid, "title": title, "url": url, "path": str(per_txt)}`. -/
structure Rec where
  id : String
  title : String
  url : String
  path : String
deriving DecidableEq

/-- The command-line options the loop consults. -/
structure Config where
  force : Bool
  skip_whisper : Bool
deriving DecidableEq

/-- Oracle for one video's external world: the per-video file's state at
check time, and the results of the caption fetch, audio fetch, and
transcription engine (`Except.error` = the engine raised). -/
structure VideoExt where
  txtExists : Bool
  txtSize : Nat
  txtContent : String
  captions : Option String
  audioFound : Bool
  whisper : Except Unit String

/-- Externally visible calls made while processing one entry. -/
inductive Ev where
  | subsRequest (url : String) : Ev
  | audioRequest (url : String) : Ev
  | engineRequest (url : String) : Ev
  | txtWrite (base body : String) : Ev
  | manifestAppend (r : Rec) : Ev
deriving DecidableEq

/-- Mutable state of the loop: the in-memory id set `seen_ids`, the
ledger file contents as a record list, and `combined_parts`. -/
structure RunState where
  seen : List String
  manifest : List Rec
  parts : List String
deriving DecidableEq

/-- The per-video base name of line 216: `safe_name(f"{title} [{vid}]")`
at the default `maxlen` of 80; `per_txt = txt_dir / f"{base}.txt"`. -/
def videoBase (title vid : String) : String :=
  safe_name (title ++ " [" ++ vid ++ "]") 80

/-- `f"# {title}\n# {url}\n\n{body}\n\n"`. -/
def fragment (title url body : String) : String :=
  "# " ++ title ++ "\n# " ++ url ++ "\n\n" ++ body ++ "\n\n"

/-- The record appended for entry `e` with per-video base name `base`. -/
def mkRec (e : Entry) (base : String) : Rec :=
  { id := e.id, title := e.title, url := e.url, path := "txt/" ++ base ++ ".txt" }

/-- `seen_ids.add(vid)`: set insertion. -/
def addSeen (seen : List String) (vid : String) : List String :=
  if vid ∈ seen then seen else seen ++ [vid]

/-- The quality gate `not txt or len(txt) < 50` on the Tier-1 result. -/
def tier1Short : Option String → Bool
  | none => true
  | some s => s = "" || s.length < 50

/-- Tiers 2-3 of the escalation for one entry: the quality gate, the
audio fetch, and the engine call with its blanket `except`. Returns the
final `txt` value (still `Option`: `None` survives when the gate is not
taken or no audio artifact resolves) and the external calls made. -/
def tier23 (cfg : Config) (e : Entry) (ext : VideoExt) : Option String × List Ev :=
  if tier1Short ext.captions ∧ ¬ cfg.skip_whisper then
    if ext.audioFound then
      match ext.whisper with
      | .ok s => (some s, [.audioRequest e.url, .engineRequest e.url])
      | .error _ => (some "", [.audioRequest e.url, .engineRequest e.url])
    else (ext.captions, [.audioRequest e.url])
  else (ext.captions, [])

/-- One iteration of the loop, returning the updated state and the trace
of external calls. -/
def processEntry (cfg : Config) (st : RunState) (e : Entry) (ext : VideoExt) :
    RunState × List Ev :=
  if e.url = "" ∨ e.id = "" then (st, [])
  else
    let base := videoBase e.title e.id
    if ¬ cfg.force ∧ (e.id ∈ st.seen ∨ (ext.txtExists ∧ ext.txtSize > 32)) then
      let existing := if ext.txtExists then pyStrip ext.txtContent else ""
      let parts' := st.parts ++ [fragment e.title e.url existing]
      if e.id ∈ st.seen then ({ st with parts := parts' }, [])
      else
        ({ seen := st.seen ++ [e.id],
           manifest := st.manifest ++ [mkRec e base],
           parts := parts' },
         [.manifestAppend (mkRec e base)])
    else
      let step2 := tier23 cfg e ext
      let txt := step2.1.getD ""
      ({ seen := addSeen st.seen e.id,
         manifest := st.manifest ++ [mkRec e base],
         parts := st.parts ++ [fragment e.title e.url txt] },
       .subsRequest e.url :: step2.2 ++ [.txtWrite base txt, .manifestAppend (mkRec e base)])

/-- The whole loop over the enumerated entries, each paired with its
oracle. -/
def runLoop (cfg : Config) : RunState → List (Entry × VideoExt) → RunState × List Ev
  | st, [] => (st, [])
  | st, (e, ext) :: rest =>
    let r₁ := processEntry cfg st e ext
    let r₂ := runLoop cfg r₁.1 rest
    (r₂.1, r₁.2 ++ r₂.2)

/-! ## Combined-document write (lines 249-254)

```python
if combined_path.exists():
    prev = combined_path.read_text(encoding="utf-8")
    combined_path.write_text(prev + ("\n" if prev and not prev.endswith("\n") else "") + "\n".join(combined_parts), ...)
else:
    combined_path.write_text("\n".join(combined_parts), ...)
``` -/

/-- `prev.endswith("\n")`. -/
def endsWithNewline (s : String) : Bool :=
  s.data.getLast? = some '\n'

/-- Python `"\n".join(l)`. -/
def joinNl : List String → String
  | [] => ""
  | [s] => s
  | s :: rest => s ++ "\n" ++ joinNl rest

/-- The combined document's new content: `prev = none` when
`combined_path` does not exist, `some p` for its prior content `p`. -/
def writeCombined (prev : Option String) (parts : List String) : String :=
  match prev with
  | some p => p ++ (if p ≠ "" ∧ ¬ endsWithNewline p then "\n" else "") ++ joinNl parts
  | none => joinNl parts

/-- A nonempty string with no leading or trailing Python whitespace. -/
def StrippedNE (s : String) : Prop :=
  s.data ≠ [] ∧ (∀ c, s.data.head? = some c → isPySpace c = false) ∧
    (∀ c, s.data.getLast? = some c → isPySpace c = false)

/-- Claim-side collapsing of runs of consecutive equal elements. -/
def collapseRunsAux (prev : String) : List String → List String
  | [] => []
  | a :: rest => if a = prev then collapseRunsAux prev rest
      else a :: collapseRunsAux a rest

def collapseRuns : List String → List String
  | [] => []
  | a :: rest => a :: collapseRunsAux a rest

/-- The normalizer as the spec describes it: clean each cue's text
(newlines to spaces, strip), drop empty cues, collapse runs of
consecutive identical cue texts into one occurrence, and join the
survivors with a single space (no further trimming). -/
def normCues (cues : List String) : String :=
  joinSpace (collapseRuns ((cues.map cleanCue).filter (· ≠ "")))

/-! ## Basic lemmas about the string primitives -/

theorem dropWhile_head?_false {p : Char → Bool} :
    ∀ {l : List Char} {c : Char}, (l.dropWhile p).head? = some c → p c = false := by
  intro l
  induction l with
  | nil => intro c h; simp [List.dropWhile] at h
  | cons a rest ih =>
    intro c h
    rw [List.dropWhile_cons] at h
    by_cases hp : p a
    · rw [if_pos hp] at h; exact ih h
    · rw [if_neg hp] at h
      simp only [List.head?_cons, Option.some.injEq] at h
      subst h; simpa using hp

theorem stripTrailL_getLast? {p : Char → Bool} {l : List Char} {c : Char}
    (h : (stripTrailL p l).getLast? = some c) : p c = false := by
  unfold stripTrailL at h
  rw [List.getLast?_reverse] at h
  exact dropWhile_head?_false h

theorem stripTrailL_head? {p : Char → Bool} {l : List Char} {c : Char}
    (h : (stripTrailL p l).head? = some c) : l.head? = some c := by
  obtain ⟨t, ht⟩ := List.dropWhile_suffix (l := l.reverse) p
  have hl : l = stripTrailL p l ++ t.reverse := by
    have := congrArg List.reverse ht
    simpa [stripTrailL, List.reverse_append] using this.symm
  have hne : stripTrailL p l ≠ [] := by
    intro hempty; rw [hempty] at h; simp at h
  rw [hl, List.head?_append_of_ne_nil _ hne, h]

theorem pyStripL_head? {l : List Char} {c : Char}
    (h : (pyStripL l).head? = some c) : isPySpace c = false :=
  dropWhile_head?_false (stripTrailL_head? h)

theorem pyStripL_getLast? {l : List Char} {c : Char}
    (h : (pyStripL l).getLast? = some c) : isPySpace c = false :=
  stripTrailL_getLast? h

theorem dropWhile_eq_self_of_head? {p : Char → Bool} {l : List Char}
    (h : ∀ c, l.head? = some c → p c = false) : l.dropWhile p = l := by
  cases l with
  | nil => rfl
  | cons a rest =>
    rw [List.dropWhile_cons, if_neg]
    simp [h a rfl]

theorem stripTrailL_eq_self {p : Char → Bool} {l : List Char}
    (h : ∀ c, l.getLast? = some c → p c = false) : stripTrailL p l = l := by
  unfold stripTrailL
  rw [dropWhile_eq_self_of_head? (by simpa [List.head?_reverse] using h),
    List.reverse_reverse]

theorem pyStripL_eq_self {l : List Char}
    (hh : ∀ c, l.head? = some c → isPySpace c = false)
    (hl : ∀ c, l.getLast? = some c → isPySpace c = false) : pyStripL l = l := by
  unfold pyStripL stripLeadL
  rw [dropWhile_eq_self_of_head? hh, stripTrailL_eq_self hl]

/-! ## The claim-side cue normalizer and its relation to `vtt_to_txt` -/


theorem strippedNE_cleanCue {t : String} (h : cleanCue t ≠ "") :
    StrippedNE (cleanCue t) := by
  refine ⟨?_, fun c hc => pyStripL_head? hc, fun c hc => pyStripL_getLast? hc⟩
  intro hdata
  apply h
  show String.mk (cleanCue t).data = String.mk []
  rw [hdata]

theorem joinSpace_strippedNE :
    ∀ {out : List String}, out ≠ [] → (∀ s ∈ out, StrippedNE s) →
      StrippedNE (joinSpace out) := by
  intro out
  induction out with
  | nil => intro h; exact absurd rfl h
  | cons s rest ih =>
    intro _ hall
    cases rest with
    | nil => simpa [joinSpace] using hall s (by simp)
    | cons s₂ r₂ =>
      have hs := hall s (by simp)
      have hj := ih (by simp) (fun x hx => hall x (by simp [hx]))
      have hdata : (joinSpace (s :: s₂ :: r₂)).data
          = (s.data ++ [' ']) ++ (joinSpace (s₂ :: r₂)).data := by
        show (s ++ " " ++ joinSpace (s₂ :: r₂)).data = _
        rw [String.data_append, String.data_append]
      refine ⟨?_, ?_, ?_⟩
      · rw [hdata]; simp [hs.1]
      · intro c hc
        rw [hdata, List.append_assoc, List.head?_append_of_ne_nil _ hs.1] at hc
        exact hs.2.1 c hc
      · intro c hc
        rw [hdata, List.getLast?_append_of_ne_nil _ hj.1] at hc
        exact hj.2.2 c hc

theorem pyStrip_joinSpace {out : List String} (h : ∀ s ∈ out, StrippedNE s) :
    pyStrip (joinSpace out) = joinSpace out := by
  cases out with
  | nil => rfl
  | cons s rest =>
    have hj := joinSpace_strippedNE (by simp) h
    show String.mk (pyStripL (joinSpace (s :: rest)).data) = _
    rw [pyStripL_eq_self hj.2.1 hj.2.2]


theorem dedupLoop_eq_aux :
    ∀ (l : List String) (last : String), dedupLoop l last = collapseRunsAux last l := by
  intro l
  induction l with
  | nil => intro last; rfl
  | cons a rest ih =>
    intro last
    show (if a ≠ last then a :: dedupLoop rest a else dedupLoop rest a) = _
    show _ = if a = last then collapseRunsAux last rest else a :: collapseRunsAux a rest
    by_cases hal : a = last
    · rw [if_neg (by simpa using hal), if_pos hal, ih, hal]
    · rw [if_pos hal, if_neg hal, ih]

theorem dedupLoop_eq_collapseRuns {l : List String} (h : "" ∉ l) :
    dedupLoop l "" = collapseRuns l := by
  cases l with
  | nil => rfl
  | cons a rest =>
    have ha : a ≠ "" := fun hc => h (by simp [hc])
    show (if a ≠ "" then a :: dedupLoop rest a else dedupLoop rest a) = a :: collapseRunsAux a rest
    rw [if_pos ha, dedupLoop_eq_aux]

theorem collapseRunsAux_subset :
    ∀ {l : List String} {prev x : String}, x ∈ collapseRunsAux prev l → x ∈ l := by
  intro l
  induction l with
  | nil => intro prev x h; simp [collapseRunsAux] at h
  | cons a rest ih =>
    intro prev x h
    unfold collapseRunsAux at h
    by_cases hap : a = prev
    · rw [if_pos hap] at h; exact List.mem_cons_of_mem a (ih h)
    · rw [if_neg hap] at h
      rcases List.mem_cons.mp h with h | h
      · exact h ▸ List.mem_cons_self a rest
      · exact List.mem_cons_of_mem a (ih h)

theorem collapseRuns_subset {l : List String} {x : String}
    (h : x ∈ collapseRuns l) : x ∈ l := by
  cases l with
  | nil => simp [collapseRuns] at h
  | cons a rest =>
    rcases List.mem_cons.mp h with h | h
    · exact h ▸ List.mem_cons_self a rest
    · exact List.mem_cons_of_mem a (collapseRunsAux_subset h)


end Transcribe

namespace Transcribe

/-- C4: for every ordered sequence of caption cues, `vtt_to_txt` strips
each cue's text (newlines replaced by spaces), drops empty cues,
collapses runs of consecutive identical cue texts into one occurrence
while preserving non-consecutive repeats, and joins the survivors with a
single space (the claim-side `normCues`); in particular the cue sequence
`["hi there", "hi there", "ok", "hi there"]` normalizes to
`"hi there ok hi there"`. -/
theorem C4_cue_normalization :
    (∀ cues : List String, vtt_to_txt cues = normCues cues) ∧
    vtt_to_txt ["hi there", "hi there", "ok", "hi there"] = "hi there ok hi there" := by
  constructor
  · intro cues
    show pyStrip (joinSpace (dedupLoop ((cues.map cleanCue).filter (· ≠ "")) "")) = _
    have hne : "" ∉ (cues.map cleanCue).filter (· ≠ "") := by
      intro h
      have := (List.mem_filter.mp h).2
      simp at this
    rw [dedupLoop_eq_collapseRuns hne]
    apply pyStrip_joinSpace
    intro s hs
    have hsl := collapseRuns_subset hs
    have hmem := List.mem_filter.mp hsl
    obtain ⟨t, _, hct⟩ := List.mem_map.mp hmem.1
    have hne' : s ≠ "" := by simpa using hmem.2
    rw [← hct]
    exact strippedNE_cleanCue (hct ▸ hne')
  · decide

end Transcribe

namespace Transcribe

theorem mem_setAdd {s : List JKey} {v w : JKey} :
    w ∈ setAdd s v ↔ w ∈ s ∨ w = v := by
  unfold setAdd
  split_ifs with h
  · constructor
    · exact Or.inl
    · rintro (h' | rfl)
      · exact h'
      · exact h
  · simp

/-- C3: `read_manifest_ids` parses each line independently and silently
skips any line that fails to parse, parses to a non-dict, or lacks a
truthy id: a value is in the loaded set exactly when some line yields it
(so the load is total and never aborts on malformed content); in
particular a ledger with one malformed line among 3 valid lines with
distinct ids "a", "b", "c" loads to exactly those three ids. -/
theorem C3_ledger_tolerant_load :
    (∀ (lines : List (Option JVal)) (v : JKey),
        v ∈ read_manifest_ids lines ↔ ∃ line ∈ lines, lineId line = some v) ∧
    read_manifest_ids
        [some (.obj [("id", JVal.str "a"), ("title", JVal.str "t1")]),
         none,
         some (.obj [("id", JVal.str "b"), ("url", JVal.str "u")]),
         some (.obj [("id", JVal.str "c")])]
      = [JKey.str "a", JKey.str "b", JKey.str "c"] := by
  constructor
  · have key : ∀ (lines : List (Option JVal)) (acc : List JKey) (v : JKey),
        (v ∈ lines.foldl loadStep acc) ↔
          v ∈ acc ∨ ∃ line ∈ lines, lineId line = some v := by
      intro lines
      induction lines with
      | nil => intro acc v; simp
      | cons l rest ih =>
        intro acc v
        simp only [List.foldl_cons]
        cases hl : lineId l with
        | none =>
          rw [loadStep, hl, ih]
          constructor
          · rintro (h | ⟨line, hline, hid⟩)
            · exact Or.inl h
            · exact Or.inr ⟨line, List.mem_cons_of_mem l hline, hid⟩
          · rintro (h | ⟨line, hline, hid⟩)
            · exact Or.inl h
            · rcases List.mem_cons.mp hline with rfl | hline'
              · rw [hl] at hid; cases hid
              · exact Or.inr ⟨line, hline', hid⟩
        | some w =>
          rw [loadStep, hl, ih]
          constructor
          · rintro (h | ⟨line, hline, hid⟩)
            · rcases mem_setAdd.mp h with h' | rfl
              · exact Or.inl h'
              · exact Or.inr ⟨l, List.mem_cons_self l rest, hl⟩
            · exact Or.inr ⟨line, List.mem_cons_of_mem l hline, hid⟩
          · rintro (h | ⟨line, hline, hid⟩)
            · exact Or.inl (mem_setAdd.mpr (Or.inl h))
            · rcases List.mem_cons.mp hline with rfl | hline'
              · rw [hl] at hid
                exact Or.inl (mem_setAdd.mpr (Or.inr (Option.some.inj hid).symm))
              · exact Or.inr ⟨line, hline', hid⟩
    intro lines v
    have := key lines [] v
    simpa [read_manifest_ids] using this
  · decide

end Transcribe

namespace Transcribe

theorem mem_subSafeAux :
    ∀ {b : Bool} {l : List Char} {c : Char},
      c ∈ subSafeAux b l → isSafeChar c = true := by
  intro b l
  induction l generalizing b with
  | nil => intro c h; simp [subSafeAux] at h
  | cons a rest ih =>
    intro c h
    unfold subSafeAux at h
    by_cases ha : isSafeChar a
    · rw [if_pos ha] at h
      rcases List.mem_cons.mp h with rfl | h
      · exact ha
      · exact ih h
    · rw [if_neg ha] at h
      cases b with
      | true => exact ih (by simpa using h)
      | false =>
        rcases List.mem_cons.mp (by simpa using h) with rfl | h'
        · rfl
        · exact ih h'

theorem mem_collapseWsAux :
    ∀ {b : Bool} {l : List Char} {c : Char},
      c ∈ collapseWsAux b l → c ∈ l ∨ c = ' ' := by
  intro b l
  induction l generalizing b with
  | nil => intro c h; simp [collapseWsAux] at h
  | cons a rest ih =>
    intro c h
    unfold collapseWsAux at h
    by_cases ha : isPySpace a
    · rw [if_pos ha] at h
      cases b with
      | true =>
        rcases ih (by simpa using h) with h' | h'
        · exact Or.inl (List.mem_cons_of_mem a h')
        · exact Or.inr h'
      | false =>
        rcases List.mem_cons.mp (by simpa using h) with rfl | h'
        · exact Or.inr rfl
        · rcases ih h' with h'' | h''
          · exact Or.inl (List.mem_cons_of_mem a h'')
          · exact Or.inr h''
    · rw [if_neg ha] at h
      rcases List.mem_cons.mp h with rfl | h'
      · exact Or.inl (List.mem_cons_self _ _)
      · rcases ih h' with h'' | h''
        · exact Or.inl (List.mem_cons_of_mem a h'')
        · exact Or.inr h''

theorem mem_stripTrailL {p : Char → Bool} {l : List Char} {c : Char}
    (h : c ∈ stripTrailL p l) : c ∈ l := by
  unfold stripTrailL at h
  have h₁ := List.mem_reverse.mp h
  have h₂ := (List.dropWhile_suffix p).subset h₁
  exact List.mem_reverse.mp h₂

theorem mem_pyStripL {l : List Char} {c : Char} (h : c ∈ pyStripL l) : c ∈ l := by
  unfold pyStripL stripLeadL at h
  exact (List.dropWhile_suffix isPySpace).subset (mem_stripTrailL h)

theorem length_stripTrailL_le {p : Char → Bool} {l : List Char} :
    (stripTrailL p l).length ≤ l.length := by
  unfold stripTrailL
  calc (l.reverse.dropWhile p).reverse.length
      = (l.reverse.dropWhile p).length := List.length_reverse _
    _ ≤ l.reverse.length := (List.dropWhile_sublist p).length_le
    _ = l.length := List.length_reverse _

/-- C7 counterexample: the claim that EACH disallowed character yields
one underscore fails on `"a??b"`, where the run of two `'?'` yields a
single `'_'`. -/
theorem C7_per_char_underscore_false :
    safe_name "a??b" 80 ≠ "a__b" ∧ safe_name "a??b" 80 = "a_b" := by
  decide

/-- C7 amended: `safe_name` replaces each maximal run of characters
outside `[A-Za-z0-9\-\._ ]` with a single underscore, collapses
whitespace runs to a single space, trims, truncates to `maxlen`, and
strips trailing `.`, `_`, `-`, ` `; the result contains only characters
from the safe class and is at most `maxlen` long. The general parts:
every output character is in the safe class and the length bound; the
concrete parts exhibit run collapsing, whitespace collapsing with trim,
truncation, and trailing-separator stripping. -/
theorem C7_slug_amended :
    (∀ (s : String) (maxlen : Nat) (c : Char),
        c ∈ (safe_name s maxlen).data → isSafeChar c = true) ∧
    (∀ (s : String) (maxlen : Nat), (safe_name s maxlen).length ≤ maxlen) ∧
    safe_name "a??b" 80 = "a_b" ∧
    safe_name "  He?!?llo   world  " 80 = "He_llo world" ∧
    safe_name "abcdef" 3 = "abc" ∧
    safe_name "ab..x" 4 = "ab" := by
  refine ⟨?_, ?_, by decide, by decide, by decide, by decide⟩
  · intro s maxlen c h
    unfold safe_name at h
    have h₁ := mem_stripTrailL h
    have h₂ := List.take_subset _ _ h₁
    have h₃ := mem_pyStripL h₂
    rcases mem_collapseWsAux h₃ with h₄ | rfl
    · exact mem_subSafeAux h₄
    · rfl
  · intro s maxlen
    show (String.mk (stripTrailL isSepChar _)).length ≤ maxlen
    calc (stripTrailL isSepChar ((pyStripL (collapseWs (subSafeRuns (pyStripL s.data)))).take maxlen)).length
        ≤ ((pyStripL (collapseWs (subSafeRuns (pyStripL s.data)))).take maxlen).length :=
          length_stripTrailL_le
      _ ≤ maxlen := List.length_take_le _ _

end Transcribe

namespace Transcribe

/-- C10: the per-video base name is `safe_name` (maxLength 80) applied to
the single concatenated string `"<title> [<id>]"`, so the id can be
truncated away entirely: two videos with distinct ids but the same
80-character title map to the same per-video file base name. -/
theorem C10_path_not_unique :
    videoBase (String.mk (List.replicate 80 'a')) "id0000001"
      = videoBase (String.mk (List.replicate 80 'a')) "id0000002" ∧
    ("id0000001" : String) ≠ "id0000002" ∧
    videoBase (String.mk (List.replicate 80 'a')) "id0000001"
      = String.mk (List.replicate 80 'a') := by
  refine ⟨?_, by decide, by decide⟩
  decide

end Transcribe

namespace Transcribe

theorem processEntry_guard {cfg : Config} {st : RunState} {e : Entry} {ext : VideoExt}
    (h : e.url = "" ∨ e.id = "") : processEntry cfg st e ext = (st, []) := by
  unfold processEntry
  rw [if_pos h]

theorem processEntry_skip_old {cfg : Config} {st : RunState} {e : Entry} {ext : VideoExt}
    (hurl : e.url ≠ "") (hid : e.id ≠ "") (hforce : cfg.force = false)
    (hcond : e.id ∈ st.seen ∨ (ext.txtExists = true ∧ ext.txtSize > 32))
    (hmem : e.id ∈ st.seen) :
    processEntry cfg st e ext =
      ({ st with parts := st.parts ++ [fragment e.title e.url
          (if ext.txtExists then pyStrip ext.txtContent else "")] }, []) := by
  unfold processEntry
  rw [if_neg (by simp [hurl, hid]), if_pos ⟨by simp [hforce], hcond⟩, if_pos hmem]

theorem processEntry_skip_new {cfg : Config} {st : RunState} {e : Entry} {ext : VideoExt}
    (hurl : e.url ≠ "") (hid : e.id ≠ "") (hforce : cfg.force = false)
    (hcond : e.id ∈ st.seen ∨ (ext.txtExists = true ∧ ext.txtSize > 32))
    (hmem : e.id ∉ st.seen) :
    processEntry cfg st e ext =
      ({ seen := st.seen ++ [e.id],
         manifest := st.manifest ++ [mkRec e (videoBase e.title e.id)],
         parts := st.parts ++ [fragment e.title e.url
          (if ext.txtExists then pyStrip ext.txtContent else "")] },
       [.manifestAppend (mkRec e (videoBase e.title e.id))]) := by
  unfold processEntry
  rw [if_neg (by simp [hurl, hid]), if_pos ⟨by simp [hforce], hcond⟩, if_neg hmem]

end Transcribe

namespace Transcribe

theorem processEntry_noskip {cfg : Config} {st : RunState} {e : Entry} {ext : VideoExt}
    (hurl : e.url ≠ "") (hid : e.id ≠ "")
    (hns : ¬ (¬ cfg.force ∧ (e.id ∈ st.seen ∨ (ext.txtExists = true ∧ ext.txtSize > 32)))) :
    processEntry cfg st e ext =
      ({ seen := addSeen st.seen e.id,
         manifest := st.manifest ++ [mkRec e (videoBase e.title e.id)],
         parts := st.parts ++ [fragment e.title e.url ((tier23 cfg e ext).1.getD "")] },
       .subsRequest e.url :: (tier23 cfg e ext).2 ++
         [.txtWrite (videoBase e.title e.id) ((tier23 cfg e ext).1.getD ""),
          .manifestAppend (mkRec e (videoBase e.title e.id))]) := by
  unfold processEntry
  rw [if_neg (by simp [hurl, hid]), if_neg hns]

theorem tier23_accept {cfg : Config} {e : Entry} {ext : VideoExt}
    (h : ¬ (tier1Short ext.captions ∧ ¬ cfg.skip_whisper)) :
    tier23 cfg e ext = (ext.captions, []) := by
  unfold tier23
  rw [if_neg h]

theorem tier23_noaudio {cfg : Config} {e : Entry} {ext : VideoExt}
    (h : tier1Short ext.captions ∧ ¬ cfg.skip_whisper) (ha : ext.audioFound = false) :
    tier23 cfg e ext = (ext.captions, [.audioRequest e.url]) := by
  unfold tier23
  rw [if_pos h, if_neg (by simp [ha])]

theorem tier23_engine_ok {cfg : Config} {e : Entry} {ext : VideoExt} {s : String}
    (h : tier1Short ext.captions ∧ ¬ cfg.skip_whisper) (ha : ext.audioFound = true)
    (hw : ext.whisper = .ok s) :
    tier23 cfg e ext = (some s, [.audioRequest e.url, .engineRequest e.url]) := by
  unfold tier23
  rw [if_pos h, if_pos ha, hw]

theorem tier23_engine_raises {cfg : Config} {e : Entry} {ext : VideoExt}
    (h : tier1Short ext.captions ∧ ¬ cfg.skip_whisper) (ha : ext.audioFound = true)
    (hw : ext.whisper = .error ()) :
    tier23 cfg e ext = (some "", [.audioRequest e.url, .engineRequest e.url]) := by
  unfold tier23
  rw [if_pos h, if_pos ha, hw]

end Transcribe

namespace Transcribe

/-- C1: for an enumerated video processed without the force option, full
reacquisition (caption request, audio request, transcription) is skipped
exactly when the video's id is already in the in-memory ledger id set or
the per-video file at the recomputed path exists with size strictly
greater than 32 bytes; and on a skip where the id was not yet in the
ledger set, exactly one reconciling ledger record for that id is
appended, after which the id is in the in-memory ledger set. -/
theorem C1_resume_check (cfg : Config) (st : RunState) (e : Entry) (ext : VideoExt)
    (hforce : cfg.force = false) (hurl : e.url ≠ "") (hid : e.id ≠ "") :
    ((Ev.subsRequest e.url ∉ (processEntry cfg st e ext).2 ∧
      Ev.audioRequest e.url ∉ (processEntry cfg st e ext).2 ∧
      Ev.engineRequest e.url ∉ (processEntry cfg st e ext).2) ↔
      (e.id ∈ st.seen ∨ (ext.txtExists = true ∧ ext.txtSize > 32))) ∧
    ((e.id ∈ st.seen ∨ (ext.txtExists = true ∧ ext.txtSize > 32)) → e.id ∉ st.seen →
      (processEntry cfg st e ext).1.manifest
          = st.manifest ++ [mkRec e (videoBase e.title e.id)] ∧
      (processEntry cfg st e ext).2
          = [Ev.manifestAppend (mkRec e (videoBase e.title e.id))] ∧
      e.id ∈ (processEntry cfg st e ext).1.seen) := by
  constructor
  · constructor
    · intro habs
      by_contra hcond
      rw [processEntry_noskip hurl hid (fun h => hcond h.2)] at habs
      exact habs.1 (List.mem_cons_self _ _)
    · intro hcond
      by_cases hmem : e.id ∈ st.seen
      · rw [processEntry_skip_old hurl hid hforce hcond hmem]
        simp
      · rw [processEntry_skip_new hurl hid hforce hcond hmem]
        simp
  · intro hcond hmem
    rw [processEntry_skip_new hurl hid hforce hcond hmem]
    refine ⟨rfl, rfl, ?_⟩
    simp

/-- Witness for C1 at a concrete input: no force, empty ledger, per-video
file of 100 bytes on disk (the crash-recovery case). -/
theorem C1_resume_check_witness :
    ((Ev.subsRequest "http://u" ∉
        (processEntry ⟨false, false⟩ ⟨[], [], []⟩ ⟨"v1", "Title", "http://u"⟩
          ⟨true, 100, "hello", none, false, .error ()⟩).2 ∧
      Ev.audioRequest "http://u" ∉
        (processEntry ⟨false, false⟩ ⟨[], [], []⟩ ⟨"v1", "Title", "http://u"⟩
          ⟨true, 100, "hello", none, false, .error ()⟩).2 ∧
      Ev.engineRequest "http://u" ∉
        (processEntry ⟨false, false⟩ ⟨[], [], []⟩ ⟨"v1", "Title", "http://u"⟩
          ⟨true, 100, "hello", none, false, .error ()⟩).2) ↔
      (("v1" : String) ∈ ([] : List String) ∨ (true = true ∧ 100 > 32))) ∧
    ((("v1" : String) ∈ ([] : List String) ∨ (true = true ∧ 100 > 32)) →
      ("v1" : String) ∉ ([] : List String) →
      (processEntry ⟨false, false⟩ ⟨[], [], []⟩ ⟨"v1", "Title", "http://u"⟩
          ⟨true, 100, "hello", none, false, .error ()⟩).1.manifest
        = [] ++ [mkRec ⟨"v1", "Title", "http://u"⟩ (videoBase "Title" "v1")] ∧
      (processEntry ⟨false, false⟩ ⟨[], [], []⟩ ⟨"v1", "Title", "http://u"⟩
          ⟨true, 100, "hello", none, false, .error ()⟩).2
        = [Ev.manifestAppend (mkRec ⟨"v1", "Title", "http://u"⟩ (videoBase "Title" "v1"))] ∧
      ("v1" : String) ∈
        (processEntry ⟨false, false⟩ ⟨[], [], []⟩ ⟨"v1", "Title", "http://u"⟩
          ⟨true, 100, "hello", none, false, .error ()⟩).1.seen) :=
  C1_resume_check ⟨false, false⟩ ⟨[], [], []⟩ ⟨"v1", "Title", "http://u"⟩
    ⟨true, 100, "hello", none, false, .error ()⟩ rfl (by decide) (by decide)

end Transcribe

namespace Transcribe

theorem tier1Short_iff (t : Option String) :
    tier1Short t = true ↔ (t.getD "" = "" ∨ (t.getD "").length < 50) := by
  cases t with
  | none => simp [tier1Short]
  | some s => simp [tier1Short]

/-- C2: on the non-skip path, escalation to the speech fallback (the
audio request) happens exactly when the Tier-1 result is empty or
strictly shorter than 50 characters and the fallback has not been
disabled; a Tier-1 result of length at least 50 is accepted as final
with no audio fetch or transcription, and is what gets persisted. In
particular a 49-character result escalates and a 50-character result is
accepted. -/
theorem C2_quality_gate (cfg : Config) (st : RunState) (e : Entry) (ext : VideoExt)
    (hurl : e.url ≠ "") (hid : e.id ≠ "")
    (hns : ¬ (¬ cfg.force ∧ (e.id ∈ st.seen ∨ (ext.txtExists = true ∧ ext.txtSize > 32)))) :
    ((Ev.audioRequest e.url ∈ (processEntry cfg st e ext).2) ↔
      ((ext.captions.getD "" = "" ∨ (ext.captions.getD "").length < 50) ∧
        cfg.skip_whisper = false)) ∧
    (∀ s : String, ext.captions = some s → 50 ≤ s.length →
      (processEntry cfg st e ext).2
        = [Ev.subsRequest e.url, Ev.txtWrite (videoBase e.title e.id) s,
           Ev.manifestAppend (mkRec e (videoBase e.title e.id))] ∧
      (processEntry cfg st e ext).1.parts
        = st.parts ++ [fragment e.title e.url s]) ∧
    Ev.audioRequest "u" ∈
      (processEntry ⟨false, false⟩ ⟨[], [], []⟩ ⟨"v1", "T", "u"⟩
        ⟨false, 0, "", some (String.mk (List.replicate 49 'x')), false, .ok "w"⟩).2 ∧
    (processEntry ⟨false, false⟩ ⟨[], [], []⟩ ⟨"v1", "T", "u"⟩
        ⟨false, 0, "", some (String.mk (List.replicate 50 'x')), false, .ok "w"⟩).2
      = [Ev.subsRequest "u",
         Ev.txtWrite (videoBase "T" "v1") (String.mk (List.replicate 50 'x')),
         Ev.manifestAppend (mkRec ⟨"v1", "T", "u"⟩ (videoBase "T" "v1"))] := by
  rw [processEntry_noskip hurl hid hns]
  refine ⟨?_, ?_, by decide, by decide⟩
  · by_cases hgate : tier1Short ext.captions ∧ ¬ cfg.skip_whisper
    · constructor
      · intro _
        refine ⟨(tier1Short_iff ext.captions).mp hgate.1, ?_⟩
        cases hsw : cfg.skip_whisper
        · rfl
        · exact absurd hsw hgate.2
      · intro _
        by_cases ha : ext.audioFound = true
        · cases hw : ext.whisper with
          | ok s => rw [tier23_engine_ok hgate ha hw]; simp
          | error u => cases u; rw [tier23_engine_raises hgate ha hw]; simp
        · rw [tier23_noaudio hgate (by simpa using ha)]; simp
    · rw [tier23_accept hgate]
      constructor
      · intro hmem
        simp at hmem
      · rintro ⟨hshort, hsw⟩
        exact absurd ⟨(tier1Short_iff ext.captions).mpr hshort, by simp [hsw]⟩ hgate
  · intro s hs hlen
    have hshort : tier1Short ext.captions = false := by
      rw [hs]
      show (s = "" || decide (s.length < 50)) = false
      have h1 : s ≠ "" := by
        intro hc
        rw [hc] at hlen
        simp at hlen
      have h2 : ¬ s.length < 50 := by omega
      simp [h1, h2]
    rw [tier23_accept (fun h => by rw [hshort] at h; exact absurd h.1 (by simp))]
    rw [hs]
    exact ⟨rfl, rfl⟩

/-- Witness for C2 at a concrete input: empty ledger, no per-video file,
captions of length 60. -/
theorem C2_quality_gate_witness :
    ((Ev.audioRequest "u" ∈
        (processEntry ⟨false, false⟩ ⟨[], [], []⟩ ⟨"v1", "T", "u"⟩
          ⟨false, 0, "", some (String.mk (List.replicate 60 'x')), false, .ok "w"⟩).2) ↔
      (((some (String.mk (List.replicate 60 'x'))).getD "" = "" ∨
          ((some (String.mk (List.replicate 60 'x'))).getD "").length < 50) ∧
        (false : Bool) = false)) ∧
    (∀ s : String, some (String.mk (List.replicate 60 'x')) = some s → 50 ≤ s.length →
      (processEntry ⟨false, false⟩ ⟨[], [], []⟩ ⟨"v1", "T", "u"⟩
          ⟨false, 0, "", some (String.mk (List.replicate 60 'x')), false, .ok "w"⟩).2
        = [Ev.subsRequest "u", Ev.txtWrite (videoBase "T" "v1") s,
           Ev.manifestAppend (mkRec ⟨"v1", "T", "u"⟩ (videoBase "T" "v1"))] ∧
      (processEntry ⟨false, false⟩ ⟨[], [], []⟩ ⟨"v1", "T", "u"⟩
          ⟨false, 0, "", some (String.mk (List.replicate 60 'x')), false, .ok "w"⟩).1.parts
        = [] ++ [fragment "T" "u" s]) ∧
    Ev.audioRequest "u" ∈
      (processEntry ⟨false, false⟩ ⟨[], [], []⟩ ⟨"v1", "T", "u"⟩
        ⟨false, 0, "", some (String.mk (List.replicate 49 'x')), false, .ok "w"⟩).2 ∧
    (processEntry ⟨false, false⟩ ⟨[], [], []⟩ ⟨"v1", "T", "u"⟩
        ⟨false, 0, "", some (String.mk (List.replicate 50 'x')), false, .ok "w"⟩).2
      = [Ev.subsRequest "u",
         Ev.txtWrite (videoBase "T" "v1") (String.mk (List.replicate 50 'x')),
         Ev.manifestAppend (mkRec ⟨"v1", "T", "u"⟩ (videoBase "T" "v1"))] :=
  C2_quality_gate ⟨false, false⟩ ⟨[], [], []⟩ ⟨"v1", "T", "u"⟩
    ⟨false, 0, "", some (String.mk (List.replicate 60 'x')), false, .ok "w"⟩
    (by decide) (by decide) (by decide)

end Transcribe

namespace Transcribe

/-- C8: an exception raised by the transcription engine is caught at the
Tier-3 boundary and treated as an empty Tier-3 result — the entry is
still fully processed (empty string written to the per-video file,
ledger record appended, fragment produced); and whenever both tiers
yield nothing, the empty string is still written and a record appended
(an empty transcript is a persisted success, not an error). -/
theorem C8_engine_failure_absorbed (cfg : Config) (st : RunState) (e : Entry) (ext : VideoExt)
    (hurl : e.url ≠ "") (hid : e.id ≠ "")
    (hns : ¬ (¬ cfg.force ∧ (e.id ∈ st.seen ∨ (ext.txtExists = true ∧ ext.txtSize > 32))))
    (hsw : cfg.skip_whisper = false) :
    (ext.whisper = .error () → tier1Short ext.captions = true → ext.audioFound = true →
      (processEntry cfg st e ext).2
        = [Ev.subsRequest e.url, Ev.audioRequest e.url, Ev.engineRequest e.url,
           Ev.txtWrite (videoBase e.title e.id) "",
           Ev.manifestAppend (mkRec e (videoBase e.title e.id))] ∧
      (processEntry cfg st e ext).1.manifest
        = st.manifest ++ [mkRec e (videoBase e.title e.id)] ∧
      (processEntry cfg st e ext).1.seen = addSeen st.seen e.id ∧
      (processEntry cfg st e ext).1.parts = st.parts ++ [fragment e.title e.url ""]) ∧
    ((ext.captions = none ∨ ext.captions = some "") →
      (ext.audioFound = false ∨ ext.whisper = .ok "" ∨ ext.whisper = .error ()) →
      Ev.txtWrite (videoBase e.title e.id) "" ∈ (processEntry cfg st e ext).2 ∧
      Ev.manifestAppend (mkRec e (videoBase e.title e.id)) ∈ (processEntry cfg st e ext).2) := by
  rw [processEntry_noskip hurl hid hns]
  constructor
  · intro hw hshort ha
    have hgate : tier1Short ext.captions ∧ ¬ cfg.skip_whisper := ⟨hshort, by simp [hsw]⟩
    rw [tier23_engine_raises hgate ha hw]
    exact ⟨rfl, rfl, rfl, rfl⟩
  · intro hcap hcase
    have hshort : tier1Short ext.captions = true := by
      rcases hcap with h | h <;> rw [h] <;> rfl
    have hgate : tier1Short ext.captions ∧ ¬ cfg.skip_whisper := ⟨hshort, by simp [hsw]⟩
    have hempty : ext.captions.getD "" = "" := by
      rcases hcap with h | h <;> rw [h] <;> rfl
    rcases hcase with ha | hw | hw
    · rw [tier23_noaudio hgate ha, hempty]
      constructor <;> simp
    · by_cases ha : ext.audioFound = true
      · rw [tier23_engine_ok hgate ha hw]
        constructor <;> simp
      · rw [tier23_noaudio hgate (by simpa using ha), hempty]
        constructor <;> simp
    · by_cases ha : ext.audioFound = true
      · rw [tier23_engine_raises hgate ha hw]
        constructor <;> simp
      · rw [tier23_noaudio hgate (by simpa using ha), hempty]
        constructor <;> simp

/-- Witness for C8 at a concrete input: no captions, audio found, engine
raises. -/
theorem C8_engine_failure_absorbed_witness :
    ((Except.error () : Except Unit String) = .error () → tier1Short (none : Option String) = true →
      (true : Bool) = true →
      (processEntry ⟨false, false⟩ ⟨[], [], []⟩ ⟨"v1", "T", "u"⟩
          ⟨false, 0, "", none, true, .error ()⟩).2
        = [Ev.subsRequest "u", Ev.audioRequest "u", Ev.engineRequest "u",
           Ev.txtWrite (videoBase "T" "v1") "",
           Ev.manifestAppend (mkRec ⟨"v1", "T", "u"⟩ (videoBase "T" "v1"))] ∧
      (processEntry ⟨false, false⟩ ⟨[], [], []⟩ ⟨"v1", "T", "u"⟩
          ⟨false, 0, "", none, true, .error ()⟩).1.manifest
        = [] ++ [mkRec ⟨"v1", "T", "u"⟩ (videoBase "T" "v1")] ∧
      (processEntry ⟨false, false⟩ ⟨[], [], []⟩ ⟨"v1", "T", "u"⟩
          ⟨false, 0, "", none, true, .error ()⟩).1.seen = addSeen [] "v1" ∧
      (processEntry ⟨false, false⟩ ⟨[], [], []⟩ ⟨"v1", "T", "u"⟩
          ⟨false, 0, "", none, true, .error ()⟩).1.parts = [] ++ [fragment "T" "u" ""]) ∧
    (((none : Option String) = none ∨ (none : Option String) = some "") →
      ((true : Bool) = false ∨ (Except.error () : Except Unit String) = .ok "" ∨
        (Except.error () : Except Unit String) = .error ()) →
      Ev.txtWrite (videoBase "T" "v1") "" ∈
        (processEntry ⟨false, false⟩ ⟨[], [], []⟩ ⟨"v1", "T", "u"⟩
          ⟨false, 0, "", none, true, .error ()⟩).2 ∧
      Ev.manifestAppend (mkRec ⟨"v1", "T", "u"⟩ (videoBase "T" "v1")) ∈
        (processEntry ⟨false, false⟩ ⟨[], [], []⟩ ⟨"v1", "T", "u"⟩
          ⟨false, 0, "", none, true, .error ()⟩).2) :=
  C8_engine_failure_absorbed ⟨false, false⟩ ⟨[], [], []⟩ ⟨"v1", "T", "u"⟩
    ⟨false, 0, "", none, true, .error ()⟩ (by decide) (by decide) (by decide) rfl

end Transcribe

namespace Transcribe

theorem processEntry_parts_mono (cfg : Config) (st : RunState) (e : Entry) (ext : VideoExt) :
    (processEntry cfg st e ext).1.parts = st.parts ∨
    ∃ f, (processEntry cfg st e ext).1.parts = st.parts ++ [f] := by
  by_cases hg : e.url = "" ∨ e.id = ""
  · rw [processEntry_guard hg]
    exact Or.inl rfl
  · push_neg at hg
    by_cases hns : ¬ (¬ cfg.force ∧ (e.id ∈ st.seen ∨ (ext.txtExists = true ∧ ext.txtSize > 32)))
    · rw [processEntry_noskip hg.1 hg.2 hns]
      exact Or.inr ⟨_, rfl⟩
    · rw [not_not] at hns
      have hforce : cfg.force = false := by
        cases h : cfg.force
        · rfl
        · exact absurd h hns.1
      by_cases hmem : e.id ∈ st.seen
      · rw [processEntry_skip_old hg.1 hg.2 hforce hns.2 hmem]
        exact Or.inr ⟨_, rfl⟩
      · rw [processEntry_skip_new hg.1 hg.2 hforce hns.2 hmem]
        exact Or.inr ⟨_, rfl⟩

theorem processEntry_manifest_mono (cfg : Config) (st : RunState) (e : Entry) (ext : VideoExt) :
    (processEntry cfg st e ext).1.manifest = st.manifest ∨
    (processEntry cfg st e ext).1.manifest
      = st.manifest ++ [mkRec e (videoBase e.title e.id)] := by
  by_cases hg : e.url = "" ∨ e.id = ""
  · rw [processEntry_guard hg]
    exact Or.inl rfl
  · push_neg at hg
    by_cases hns : ¬ (¬ cfg.force ∧ (e.id ∈ st.seen ∨ (ext.txtExists = true ∧ ext.txtSize > 32)))
    · rw [processEntry_noskip hg.1 hg.2 hns]
      exact Or.inr rfl
    · rw [not_not] at hns
      have hforce : cfg.force = false := by
        cases h : cfg.force
        · rfl
        · exact absurd h hns.1
      by_cases hmem : e.id ∈ st.seen
      · rw [processEntry_skip_old hg.1 hg.2 hforce hns.2 hmem]
        exact Or.inl rfl
      · rw [processEntry_skip_new hg.1 hg.2 hforce hns.2 hmem]
        exact Or.inr rfl

theorem runLoop_cons (cfg : Config) (st : RunState) (e : Entry) (ext : VideoExt)
    (rest : List (Entry × VideoExt)) :
    (runLoop cfg st ((e, ext) :: rest)).1
      = (runLoop cfg (processEntry cfg st e ext).1 rest).1 := rfl

theorem runLoop_parts_append (cfg : Config) :
    ∀ (pairs : List (Entry × VideoExt)) (st : RunState),
      ∃ newParts, (runLoop cfg st pairs).1.parts = st.parts ++ newParts := by
  intro pairs
  induction pairs with
  | nil => intro st; exact ⟨[], by simp [runLoop]⟩
  | cons pe rest ih =>
    intro st
    obtain ⟨e, ext⟩ := pe
    obtain ⟨np, hnp⟩ := ih (processEntry cfg st e ext).1
    rw [runLoop_cons] at *
    rcases processEntry_parts_mono cfg st e ext with h | ⟨f, h⟩
    · exact ⟨np, by rw [hnp, h]⟩
    · exact ⟨f :: np, by rw [hnp, h, List.append_assoc]; rfl⟩

theorem runLoop_manifest_append (cfg : Config) :
    ∀ (pairs : List (Entry × VideoExt)) (st : RunState),
      ∃ suffix, (runLoop cfg st pairs).1.manifest = st.manifest ++ suffix := by
  intro pairs
  induction pairs with
  | nil => intro st; exact ⟨[], by simp [runLoop]⟩
  | cons pe rest ih =>
    intro st
    obtain ⟨e, ext⟩ := pe
    obtain ⟨np, hnp⟩ := ih (processEntry cfg st e ext).1
    rw [runLoop_cons] at *
    rcases processEntry_manifest_mono cfg st e ext with h | h
    · exact ⟨np, by rw [hnp, h]⟩
    · exact ⟨mkRec e (videoBase e.title e.id) :: np,
        by rw [hnp, h, List.append_assoc]; rfl⟩

end Transcribe

namespace Transcribe

/-- C5: in incremental mode (the combined file exists with prior content
`prev`), the new document content has `prev` as a byte-for-byte prefix;
a single newline is inserted between old and new content exactly when
`prev` is nonempty and does not already end with a newline; and the
run's fragment list only ever grows by appending at the end (one
fragment per entry at most), so fragments appear in enumeration
order. -/
theorem C5_incremental_append (cfg : Config) (st : RunState)
    (pairs : List (Entry × VideoExt)) (prev : String) :
    (∃ t, writeCombined (some prev) (runLoop cfg st pairs).1.parts = prev ++ t) ∧
    (prev ≠ "" → endsWithNewline prev = false →
      writeCombined (some prev) (runLoop cfg st pairs).1.parts
        = prev ++ "\n" ++ joinNl (runLoop cfg st pairs).1.parts) ∧
    (prev = "" ∨ endsWithNewline prev = true →
      writeCombined (some prev) (runLoop cfg st pairs).1.parts
        = prev ++ joinNl (runLoop cfg st pairs).1.parts) ∧
    (∀ st' : RunState, ∃ newParts,
      (runLoop cfg st' pairs).1.parts = st'.parts ++ newParts) ∧
    (∀ (st' : RunState) (e : Entry) (ext : VideoExt),
      (processEntry cfg st' e ext).1.parts = st'.parts ∨
      ∃ f, (processEntry cfg st' e ext).1.parts = st'.parts ++ [f]) := by
  refine ⟨?_, ?_, ?_, fun st' => runLoop_parts_append cfg pairs st',
    fun st' e ext => processEntry_parts_mono cfg st' e ext⟩
  · exact ⟨_, by show prev ++ _ ++ _ = _; rw [String.append_assoc]⟩
  · intro h1 h2
    show prev ++ _ ++ _ = _
    rw [if_pos ⟨h1, by simp [h2]⟩]
  · intro h
    show prev ++ _ ++ _ = _
    rw [if_neg ?_, String.append_empty]
    rcases h with h | h
    · exact fun hc => hc.1 h
    · exact fun hc => hc.2 (by simp [h])

/-- Witness for C5 at a concrete input: prior content `"doc"` (nonempty,
not newline-terminated) and a one-entry run; the hypotheses of the
newline-insertion conjunct are discharged concretely. -/
theorem C5_incremental_append_witness :
    (∃ t, writeCombined (some "doc")
        (runLoop ⟨false, false⟩ ⟨[], [], []⟩
          [(⟨"v1", "T", "u"⟩, ⟨false, 0, "", some "c", false, .ok "w"⟩)]).1.parts
      = "doc" ++ t) ∧
    writeCombined (some "doc")
        (runLoop ⟨false, false⟩ ⟨[], [], []⟩
          [(⟨"v1", "T", "u"⟩, ⟨false, 0, "", some "c", false, .ok "w"⟩)]).1.parts
      = "doc" ++ "\n" ++ joinNl
          (runLoop ⟨false, false⟩ ⟨[], [], []⟩
            [(⟨"v1", "T", "u"⟩, ⟨false, 0, "", some "c", false, .ok "w"⟩)]).1.parts :=
  ⟨(C5_incremental_append ⟨false, false⟩ ⟨[], [], []⟩
      [(⟨"v1", "T", "u"⟩, ⟨false, 0, "", some "c", false, .ok "w"⟩)] "doc").1,
   (C5_incremental_append ⟨false, false⟩ ⟨[], [], []⟩
      [(⟨"v1", "T", "u"⟩, ⟨false, 0, "", some "c", false, .ok "w"⟩)] "doc").2.1
     (by decide) (by decide)⟩

end Transcribe

namespace Transcribe

theorem fragment_length_pos (t u b : String) : 0 < (fragment t u b).length := by
  have h1 : ("# " : String).length = 2 := rfl
  have h2 : ("\n# " : String).length = 3 := rfl
  have h3 : ("\n\n" : String).length = 2 := rfl
  simp only [fragment, String.length_append, h1, h2, h3]
  omega

theorem length_joinNl_head (s : String) (rest : List String) :
    s.length ≤ (joinNl (s :: rest)).length := by
  cases rest with
  | nil => exact le_refl _
  | cons r rs =>
    show s.length ≤ (s ++ "\n" ++ joinNl (r :: rs)).length
    rw [String.length_append, String.length_append]
    omega

theorem runLoop_all_skip (cfg : Config) (hforce : cfg.force = false) :
    ∀ (pairs : List (Entry × VideoExt)) (st : RunState),
      (∀ p ∈ pairs, p.1.id ∈ st.seen ∧ p.1.id ≠ "" ∧ p.1.url ≠ "") →
      (runLoop cfg st pairs).1.parts
        = st.parts ++ pairs.map (fun p => fragment p.1.title p.1.url
            (if p.2.txtExists then pyStrip p.2.txtContent else "")) ∧
      (runLoop cfg st pairs).1.seen = st.seen := by
  intro pairs
  induction pairs with
  | nil => intro st _; exact ⟨by simp [runLoop], rfl⟩
  | cons pe rest ih =>
    intro st hall
    obtain ⟨e, ext⟩ := pe
    have he := hall (e, ext) (List.mem_cons_self _ _)
    have hstep := @processEntry_skip_old cfg st e ext
      he.2.2 he.2.1 hforce (Or.inl he.1) he.1
    rw [runLoop_cons, hstep]
    obtain ⟨h1, h2⟩ := ih { st with parts := st.parts ++ [fragment e.title e.url
        (if ext.txtExists then pyStrip ext.txtContent else "")] }
      (fun p hp => hall p (List.mem_cons_of_mem _ hp))
    refine ⟨?_, h2⟩
    rw [h1]
    simp

/-- C9: in a no-force run where every entry is already in the ledger set
(a fully processed channel), every video is skipped yet still appends
its fragment (title/url header plus the existing per-video file's
stripped content) to the combined parts, in enumeration order; hence a
second run over a nonempty processed channel changes the combined
document instead of leaving it unchanged. -/
theorem C9_skip_still_appends (cfg : Config) (st : RunState)
    (pairs : List (Entry × VideoExt)) (prev : String)
    (hforce : cfg.force = false) (hparts : st.parts = [])
    (hall : ∀ p ∈ pairs, p.1.id ∈ st.seen ∧ p.1.id ≠ "" ∧ p.1.url ≠ "") :
    (runLoop cfg st pairs).1.parts
      = pairs.map (fun p => fragment p.1.title p.1.url
          (if p.2.txtExists then pyStrip p.2.txtContent else "")) ∧
    (pairs ≠ [] → writeCombined (some prev) (runLoop cfg st pairs).1.parts ≠ prev) := by
  have key := runLoop_all_skip cfg hforce pairs st hall
  have hP : (runLoop cfg st pairs).1.parts
      = pairs.map (fun p => fragment p.1.title p.1.url
          (if p.2.txtExists then pyStrip p.2.txtContent else "")) := by
    rw [key.1, hparts]
    rfl
  refine ⟨hP, ?_⟩
  intro hne hcontra
  cases hpairs : pairs with
  | nil => exact hne hpairs
  | cons p rest =>
    rw [hP, hpairs] at hcontra
    have hcontra' : prev ++ (if prev ≠ "" ∧ ¬ endsWithNewline prev then "\n" else "")
        ++ joinNl ((p :: rest).map (fun q => fragment q.1.title q.1.url
            (if q.2.txtExists then pyStrip q.2.txtContent else ""))) = prev := hcontra
    have hlen := congrArg String.length hcontra'
    rw [String.length_append, String.length_append] at hlen
    have hfrag := fragment_length_pos p.1.title p.1.url
      (if p.2.txtExists then pyStrip p.2.txtContent else "")
    have hjoin := length_joinNl_head
      (fragment p.1.title p.1.url (if p.2.txtExists then pyStrip p.2.txtContent else ""))
      (rest.map (fun q => fragment q.1.title q.1.url
          (if q.2.txtExists then pyStrip q.2.txtContent else "")))
    rw [List.map_cons] at hlen
    omega

/-- Witness for C9 at a concrete input: one already-ledgered entry and a
prior combined document `"old\n"`. -/
theorem C9_skip_still_appends_witness :
    ((runLoop ⟨false, false⟩ ⟨["v1"], [⟨"v1", "T", "u", "p"⟩], []⟩
        [(⟨"v1", "T", "u"⟩, ⟨true, 100, " hello ", none, false, .ok "w"⟩)]).1.parts
      = ([((⟨"v1", "T", "u"⟩ : Entry),
            (⟨true, 100, " hello ", none, false, .ok "w"⟩ : VideoExt))]).map
          (fun p => fragment p.1.title p.1.url
            (if p.2.txtExists then pyStrip p.2.txtContent else "")) ∧
    ([((⟨"v1", "T", "u"⟩ : Entry),
        (⟨true, 100, " hello ", none, false, .ok "w"⟩ : VideoExt))]
        ≠ ([] : List (Entry × VideoExt)) →
      writeCombined (some "old\n")
          (runLoop ⟨false, false⟩ ⟨["v1"], [⟨"v1", "T", "u", "p"⟩], []⟩
            [(⟨"v1", "T", "u"⟩, ⟨true, 100, " hello ", none, false, .ok "w"⟩)]).1.parts
        ≠ "old\n")) ∧
    writeCombined (some "old\n")
        (runLoop ⟨false, false⟩ ⟨["v1"], [⟨"v1", "T", "u", "p"⟩], []⟩
          [(⟨"v1", "T", "u"⟩, ⟨true, 100, " hello ", none, false, .ok "w"⟩)]).1.parts
      ≠ "old\n" := by
  have h := C9_skip_still_appends ⟨false, false⟩ ⟨["v1"], [⟨"v1", "T", "u", "p"⟩], []⟩
    [(⟨"v1", "T", "u"⟩, ⟨true, 100, " hello ", none, false, .ok "w"⟩)] "old\n"
    rfl rfl (by intro p hp; rw [List.mem_singleton] at hp; rw [hp]; exact ⟨by decide, by decide, by decide⟩)
  exact ⟨h, h.2 (List.cons_ne_nil _ _)⟩

end Transcribe

namespace Transcribe

theorem ledger_inv_extend {seen : List String} {manifest : List Rec} {r₀ : Rec}
    (hcover : ∀ r ∈ manifest, r.id ∈ seen)
    (hnodup : (manifest.map Rec.id).Nodup)
    (hmem : r₀.id ∉ seen) :
    (∀ r ∈ manifest ++ [r₀], r.id ∈ seen ++ [r₀.id]) ∧
    ((manifest ++ [r₀]).map Rec.id).Nodup := by
  constructor
  · intro r hr
    rcases List.mem_append.mp hr with h | h
    · exact List.mem_append_left _ (hcover r h)
    · rw [List.mem_singleton] at h
      subst h
      exact List.mem_append_right _ (by simp)
  · rw [List.map_append]
    refine List.Nodup.append hnodup (List.nodup_singleton _) ?_
    intro x hx hx'
    rw [List.map_singleton, List.mem_singleton] at hx'
    subst hx'
    obtain ⟨r, hr, hid⟩ := List.mem_map.mp hx
    exact hmem (hid ▸ hcover r hr)

theorem processEntry_ledger_inv (cfg : Config) (st : RunState) (e : Entry) (ext : VideoExt)
    (hforce : cfg.force = false)
    (hcover : ∀ r ∈ st.manifest, r.id ∈ st.seen)
    (hnodup : (st.manifest.map Rec.id).Nodup) :
    (∀ r ∈ (processEntry cfg st e ext).1.manifest,
        r.id ∈ (processEntry cfg st e ext).1.seen) ∧
    ((processEntry cfg st e ext).1.manifest.map Rec.id).Nodup := by
  by_cases hg : e.url = "" ∨ e.id = ""
  · rw [processEntry_guard hg]
    exact ⟨hcover, hnodup⟩
  · push_neg at hg
    by_cases hns : ¬ (¬ cfg.force ∧ (e.id ∈ st.seen ∨ (ext.txtExists = true ∧ ext.txtSize > 32)))
    · have hcond : ¬ (e.id ∈ st.seen ∨ (ext.txtExists = true ∧ ext.txtSize > 32)) :=
        fun hc => hns ⟨by simp [hforce], hc⟩
      have hmem : e.id ∉ st.seen := fun hc => hcond (Or.inl hc)
      rw [processEntry_noskip hg.1 hg.2 hns]
      have haddS : addSeen st.seen e.id = st.seen ++ [e.id] := by
        rw [addSeen, if_neg hmem]
      show (∀ r ∈ st.manifest ++ [mkRec e (videoBase e.title e.id)],
          r.id ∈ addSeen st.seen e.id) ∧ _
      rw [haddS]
      exact ledger_inv_extend hcover hnodup hmem
    · rw [not_not] at hns
      by_cases hmem : e.id ∈ st.seen
      · rw [processEntry_skip_old hg.1 hg.2 hforce hns.2 hmem]
        exact ⟨hcover, hnodup⟩
      · rw [processEntry_skip_new hg.1 hg.2 hforce hns.2 hmem]
        exact ledger_inv_extend hcover hnodup hmem

theorem runLoop_ledger_inv (cfg : Config) (hforce : cfg.force = false) :
    ∀ (pairs : List (Entry × VideoExt)) (st : RunState),
      (∀ r ∈ st.manifest, r.id ∈ st.seen) →
      (st.manifest.map Rec.id).Nodup →
      (∀ r ∈ (runLoop cfg st pairs).1.manifest,
          r.id ∈ (runLoop cfg st pairs).1.seen) ∧
      ((runLoop cfg st pairs).1.manifest.map Rec.id).Nodup := by
  intro pairs
  induction pairs with
  | nil => intro st hcover hnodup; exact ⟨hcover, hnodup⟩
  | cons pe rest ih =>
    intro st hcover hnodup
    obtain ⟨e, ext⟩ := pe
    have hstep := processEntry_ledger_inv cfg st e ext hforce hcover hnodup
    rw [runLoop_cons]
    exact ih (processEntry cfg st e ext).1 hstep.1 hstep.2

/-- C6 counterexample: with the force option set, reprocessing a video
whose id is already in the ledger appends a second record with the same
id, so record ids are not unique across the ledger. -/
theorem C6_force_duplicate :
    ¬ (((runLoop ⟨true, false⟩ ⟨["v1"], [⟨"v1", "T", "u", "txt/T _v1.txt"⟩], []⟩
        [(⟨"v1", "T", "u"⟩,
          ⟨true, 100, "old", some (String.mk (List.replicate 60 'x')), false,
            .ok "w"⟩)]).1.manifest.map Rec.id).Nodup) := by
  decide

/-- C6 amended: the ledger is append-only under every configuration (no
record is ever updated or deleted), and in runs WITHOUT the force option
it holds at most one record per video id: if every existing record's id
is in the loaded set and record ids are unique, both properties are
preserved by the run. With force, a reprocessed video can append a
second record for an id already in the ledger. -/
theorem C6_ledger_write_once (cfg : Config) (st : RunState)
    (pairs : List (Entry × VideoExt)) (hforce : cfg.force = false)
    (hcover : ∀ r ∈ st.manifest, r.id ∈ st.seen)
    (hnodup : (st.manifest.map Rec.id).Nodup) :
    ((runLoop cfg st pairs).1.manifest.map Rec.id).Nodup ∧
    (∀ r ∈ (runLoop cfg st pairs).1.manifest,
        r.id ∈ (runLoop cfg st pairs).1.seen) ∧
    (∀ (cfg' : Config) (st' : RunState) (pairs' : List (Entry × VideoExt)),
      ∃ suffix, (runLoop cfg' st' pairs').1.manifest = st'.manifest ++ suffix) :=
  ⟨(runLoop_ledger_inv cfg hforce pairs st hcover hnodup).2,
   (runLoop_ledger_inv cfg hforce pairs st hcover hnodup).1,
   fun cfg' st' pairs' => runLoop_manifest_append cfg' pairs' st'⟩

/-- Witness for C6 at a concrete input: a no-force run over one new entry
starting from a one-record ledger. -/
theorem C6_ledger_write_once_witness :
    (((runLoop ⟨false, false⟩ ⟨["v0"], [⟨"v0", "T0", "u0", "p0"⟩], []⟩
        [(⟨"v1", "T", "u"⟩, ⟨false, 0, "", some "c", false, .ok "w"⟩)]).1.manifest.map
          Rec.id).Nodup) ∧
    (∀ r ∈ (runLoop ⟨false, false⟩ ⟨["v0"], [⟨"v0", "T0", "u0", "p0"⟩], []⟩
        [(⟨"v1", "T", "u"⟩, ⟨false, 0, "", some "c", false, .ok "w"⟩)]).1.manifest,
      r.id ∈ (runLoop ⟨false, false⟩ ⟨["v0"], [⟨"v0", "T0", "u0", "p0"⟩], []⟩
        [(⟨"v1", "T", "u"⟩, ⟨false, 0, "", some "c", false, .ok "w"⟩)]).1.seen) ∧
    (∀ (cfg' : Config) (st' : RunState) (pairs' : List (Entry × VideoExt)),
      ∃ suffix, (runLoop cfg' st' pairs').1.manifest = st'.manifest ++ suffix) :=
  C6_ledger_write_once ⟨false, false⟩ ⟨["v0"], [⟨"v0", "T0", "u0", "p0"⟩], []⟩
    [(⟨"v1", "T", "u"⟩, ⟨false, 0, "", some "c", false, .ok "w"⟩)] rfl
    (by intro r hr; rw [List.mem_singleton] at hr; rw [hr]; decide)
    (by decide)

end Transcribe
